import Mathlib

set_option maxHeartbeats 1000000

/-!
Verification development for the triangular-arbitrage bot
(`binance_arbitrage_bot.py`).  The Python module's pure decision logic is
shallowly embedded: exchange responses become fields of an explicit
environment record, the module-global `last_prices` dictionary becomes an
explicitly threaded cache value, exceptions become `Except` values, and
floating-point amounts become rationals.
-/

/-- Constant `TRADE_FEE = 0.00075` from the source. -/
def TRADE_FEE : ℚ := 75 / 100000

/-- Constant `SLIPPAGE_TOLERANCE = 0.002` from the source. -/
def SLIPPAGE_TOLERANCE : ℚ := 2 / 1000

/-- Constant `MIN_PROFIT_THRESHOLD = 0.001` from the source. -/
def MIN_PROFIT_THRESHOLD : ℚ := 1 / 1000

/-- Constant `MIN_TRADE_AMOUNT = 10` (USDT) from the source. -/
def MIN_TRADE_AMOUNT : ℚ := 10

/-- Constant `MAX_TRADE_AMOUNT = 1000` (USDT) from the source. -/
def MAX_TRADE_AMOUNT : ℚ := 1000

/-- Constant `INITIAL_BALANCE = 100` from the source. -/
def INITIAL_BALANCE : ℚ := 100

/-- Constant `RETRY_TIMES = 3` from the source. -/
def RETRY_TIMES : Nat := 3

/-- The configured `TRADE_PATHS` list from the source. -/
def TRADE_PATHS : List (List String) :=
  [["USDT", "BNB", "ETH", "USDT"],
   ["USDT", "BTC", "BNB", "USDT"],
   ["USDT", "BTC", "ETH", "USDT"]]

/-- The module-global `last_prices` dictionary: the mutable cache that
`get_price` updates as a side effect.  Threaded explicitly. -/
abbrev Cache := String → Option ℚ

/-- The empty `last_prices` dictionary at module load. -/
def cache0 : Cache := fun _ => none

/-- Dictionary store `last_prices[symbol] = price`. -/
def cacheInsert (st : Cache) (sym : String) (p : ℚ) : Cache :=
  fun s => if s = sym then some p else st s

/-- Environment view of the exchange and the balance sheet, covering the
read-only collaborator calls made by `calculate_profit`:
`symbols` is the symbol list of `client.get_exchange_info()` used by
`is_pair_tradable`; `ticker s` is the price of `client.get_symbol_ticker`
(`none` when the call fails or the field is missing, which `get_price`
turns into `None`); `orderBook s` is `float(depth['asks'][0][0])` of
`client.get_order_book` (`none` models a raised lookup error, which the
enclosing `try` blocks turn into the failure path); `latestBalance` is the
value returned by `get_latest_balance()` from the spreadsheet. -/
structure MarketData where
  symbols : List String
  ticker : String → Option ℚ
  orderBook : String → Option ℚ
  latestBalance : ℚ

/-- `is_pair_tradable(pair)`: membership of the pair in the exchange-info
symbol list; the source returns `False` on any API error. -/
def is_pair_tradable (md : MarketData) (pair : String) : Bool :=
  pair ∈ md.symbols

/-- `get_price(symbol)`: returns the ticker price and stores it into the
module-global `last_prices` cache (the price-change comparison against the
cache only logs and does not affect the returned value); returns `None`
when the ticker is unavailable, leaving the cache unchanged. -/
def get_price (md : MarketData) (st : Cache) (symbol : String) :
    Option ℚ × Cache :=
  match md.ticker symbol with
  | none => (none, st)
  | some p => (some p, cacheInsert st symbol p)

/-- One iteration of the leg loop in `calculate_profit` (source lines
247-268) for the leg from asset `a` to asset `b`: the symbol is the plain
concatenation `path[i] + path[i+1]`; the leg fails (whole evaluation
returns 0) when the pair is not tradable, the price is falsy (`None` or
`0`), the order-book lookup raises, or the slippage
`abs(best - price)/price` exceeds the tolerance; otherwise the running
amount becomes `amount * price * (1 - TRADE_FEE)`. -/
def legStep (md : MarketData) (st : Cache) (amount : ℚ) (a b : String) :
    Option ℚ × Cache :=
  let symbol := a ++ b
  if is_pair_tradable md symbol then
    match get_price md st symbol with
    | (none, st') => (none, st')
    | (some p, st') =>
      if p = 0 then (none, st')
      else
        match md.orderBook symbol with
        | none => (none, st')
        | some best =>
          if SLIPPAGE_TOLERANCE < |best - p| / p then (none, st')
          else (some (amount * p * (1 - TRADE_FEE)), st')
  else (none, st)

/-- The full leg loop of `calculate_profit` over consecutive asset pairs
of the path, threading the running amount and the `last_prices` cache;
`none` is the short-circuit to `return 0`. -/
def runLegs (md : MarketData) (st : Cache) :
    List String → ℚ → Option ℚ × Cache
  | a :: b :: rest, amount =>
    match legStep md st amount a b with
    | (none, st') => (none, st')
    | (some amt, st') => runLegs md st' (b :: rest) amt
  | _, amount => (some amount, st)

/-- `calculate_profit(path)` (source lines 231-284): the principal is 80%
of `get_latest_balance()`; below `MIN_TRADE_AMOUNT` the function returns
`0`; above `MAX_TRADE_AMOUNT` it is clamped; then the leg loop runs and
the result is final amount minus initial amount, with every failure path
(and the enclosing `except`) yielding `0`. -/
def calculate_profit (md : MarketData) (st : Cache) (path : List String) :
    ℚ × Cache :=
  let amount := md.latestBalance * (8 / 10)
  if amount < MIN_TRADE_AMOUNT then (0, st)
  else
    let amount' := if MAX_TRADE_AMOUNT < amount then MAX_TRADE_AMOUNT else amount
    match runLegs md st path amount' with
    | (none, st') => (0, st')
    | (some final, st') => (final - amount', st')

/-- The list of leg symbols `path[i] + path[i+1]` that the source builds
for a path. -/
def legSymbols : List String → List String
  | a :: b :: rest => (a ++ b) :: legSymbols (b :: rest)
  | _ => []

/-- The profit value of a path, evaluated from an empty cache.  The cache
never influences the value (see the determinism theorem), so this is the
canonical profit of a path under given market data. -/
def pathProfit (md : MarketData) (path : List String) : ℚ :=
  (calculate_profit md cache0 path).1

/-- Exception taxonomy raised inside `execute_trade` and propagated to the
retry decorator: the first four are the `ValueError` business rejections
the source raises (amount below minimum, untradable pair, excessive
slippage, zero amount), `apiError` models a raised exchange lookup error,
and `networkError` models a transient network or timeout failure. -/
inductive PyError
  | belowMinimum
  | pairUnavailable (s : String)
  | slippageTooLarge (s : String)
  | zeroAmount
  | apiError
  | networkError
deriving DecidableEq, Repr

/-- Whether an exception is one of the `ValueError` business rejections. -/
def PyError.isValueError : PyError → Bool
  | .belowMinimum => true
  | .pairUnavailable _ => true
  | .slippageTooLarge _ => true
  | .zeroAmount => true
  | .apiError => false
  | .networkError => false

/-- The generic `retry_on_error` decorator (source lines 149-161), run
from `attempt` with `fuel` remaining retries: every exception — of any
type — is caught; if retries remain the wrapper sleeps `2 ** attempt`
seconds and calls the function again, otherwise the last exception is
re-raised.  `f n` is the outcome of the wrapped call on attempt `n`; the
returned list records the backoff sleeps performed. -/
def retryFrom (f : Nat → Except PyError ℚ) (attempt : Nat) :
    Nat → Except PyError ℚ × List Nat
  | 0 => (f attempt, [])
  | fuel + 1 =>
    match f attempt with
    | .ok a => (.ok a, [])
    | .error _ =>
      let r := retryFrom f (attempt + 1) fuel
      (r.1, 2 ^ attempt :: r.2)

/-- `retry_on_error` applied to a fallible call: `RETRY_TIMES` attempts in
total, so `RETRY_TIMES - 1` retries after the first attempt. -/
def retry_on_error (f : Nat → Except PyError ℚ) : Except PyError ℚ × List Nat :=
  retryFrom f 0 (RETRY_TIMES - 1)

/-- An order submitted through `client.order_market_buy(symbol=...,
quoteOrderQty=...)`. -/
structure TradeOrder where
  symbol : String
  quoteQty : ℚ
deriving DecidableEq, Repr

/-- The outbound exchange calls the execution path performs, in order:
`exchangeInfo` for `is_pair_tradable`, `orderBook` for
`client.get_order_book`, `ticker` for `get_price`, `marketBuy` for
`client.order_market_buy`, and `assetBalance` for `get_account_balance`. -/
inductive ApiCall
  | exchangeInfo (symbol : String)
  | orderBook (symbol : String)
  | ticker (symbol : String)
  | marketBuy (symbol : String) (quoteQty : ℚ)
  | assetBalance (asset : String)
deriving DecidableEq, Repr

/-- Environment of one `execute_trade` attempt: the market data, the
`get_account_balance` responses, and the `executedQty` fill reported by
the exchange for a market buy of a given quote amount. -/
structure ExecEnv where
  md : MarketData
  assetBalance : String → ℚ
  executedQty : String → ℚ → ℚ

/-- Outcome of the leg loop of `execute_trade`: the orders submitted (in
submission order), the outbound exchange calls made, the final
`last_prices` cache, and either the final running amount or the exception
that aborted the loop. -/
structure LegsOut where
  submitted : List TradeOrder
  calls : List ApiCall
  st : Cache
  result : Except PyError ℚ

/-- The per-leg slippage re-check of `execute_trade` (source lines
378-382): performed only when `current_price` is truthy (neither `None`
nor 0); fails when `abs(best_ask - current_price)/current_price` exceeds
the tolerance. -/
def slipCheckFails (best : ℚ) (price? : Option ℚ) : Bool :=
  match price? with
  | none => false
  | some p =>
    if p = 0 then false
    else decide (SLIPPAGE_TOLERANCE < |best - p| / p)

/-- The leg loop of `execute_trade` (source lines 366-399).  Per leg, in
source order: `is_pair_tradable` (raising `ValueError` when untradable),
`client.get_order_book` (a lookup failure raises), `get_price`, then the
slippage re-check; finally, when the running amount is positive, the
market buy is submitted and the running amount becomes the order's
`executedQty`, else a `ValueError` is raised. -/
def legsExec (env : ExecEnv) (st : Cache) (current : ℚ) :
    List String → LegsOut
  | a :: b :: rest =>
    let symbol := a ++ b
    if is_pair_tradable env.md symbol then
      match env.md.orderBook symbol with
      | none =>
        ⟨[], [.exchangeInfo symbol, .orderBook symbol], st, .error .apiError⟩
      | some best =>
        let pr := get_price env.md st symbol
        if slipCheckFails best pr.1 then
          ⟨[], [.exchangeInfo symbol, .orderBook symbol, .ticker symbol],
           pr.2, .error (.slippageTooLarge symbol)⟩
        else if 0 < current then
          let filled := env.executedQty symbol current
          let tail := legsExec env pr.2 filled (b :: rest)
          ⟨⟨symbol, current⟩ :: tail.submitted,
           .exchangeInfo symbol :: .orderBook symbol :: .ticker symbol ::
             .marketBuy symbol current :: tail.calls,
           tail.st, tail.result⟩
        else
          ⟨[], [.exchangeInfo symbol, .orderBook symbol, .ticker symbol],
           pr.2, .error .zeroAmount⟩
    else
      ⟨[], [.exchangeInfo symbol], st, .error (.pairUnavailable symbol)⟩
  | _ => ⟨[], [], st, .ok current⟩

/-- Result of one whole `execute_trade` pass (and of the retried whole
trade): submitted orders, outbound exchange calls made directly by the
execution body (the calls made inside the nested `calculate_profit` are
not listed), final cache, and the actual profit or the exception. -/
structure ExecResult where
  submitted : List TradeOrder
  calls : List ApiCall
  st : Cache
  outcome : Except PyError ℚ

/-- One pass of the `execute_trade` body (source lines 333-446): the
trade amount is 80% of `get_latest_balance()`; `calculate_profit` is
evaluated for the log record (mutating the price cache); below
`MIN_TRADE_AMOUNT` a `ValueError` is raised before any exchange call of
the body; above `MAX_TRADE_AMOUNT` the amount is clamped; a BNB balance
below 0.1 triggers a fee-funding market buy of `trade_amount * 0.2` BNB
when `BNBUSDT` is tradable; then the leg loop runs, and on success the
actual profit is the final balance of the path's last asset minus the
(clamped) trade amount. -/
def execute_trade_body (env : ExecEnv) (st : Cache) (path : List String) :
    ExecResult :=
  let trade_amount := env.md.latestBalance * (8 / 10)
  let est := calculate_profit env.md st path
  let st₁ := est.2
  if trade_amount < MIN_TRADE_AMOUNT then ⟨[], [], st₁, .error .belowMinimum⟩
  else
    let trade_amount' :=
      if MAX_TRADE_AMOUNT < trade_amount then MAX_TRADE_AMOUNT else trade_amount
    let bnb := env.assetBalance "BNB"
    let bnbOrders :=
      if bnb < 1 / 10 then
        if is_pair_tradable env.md "BNBUSDT" then
          [TradeOrder.mk "BNBUSDT" (trade_amount' * (2 / 10))]
        else []
      else []
    let bnbCalls :=
      if bnb < 1 / 10 then
        if is_pair_tradable env.md "BNBUSDT" then
          [ApiCall.assetBalance "BNB", ApiCall.exchangeInfo "BNBUSDT",
           ApiCall.marketBuy "BNBUSDT" (trade_amount' * (2 / 10))]
        else [ApiCall.assetBalance "BNB", ApiCall.exchangeInfo "BNBUSDT"]
      else [ApiCall.assetBalance "BNB"]
    let legs := legsExec env st₁ trade_amount' path
    match legs.result with
    | .error e =>
      ⟨bnbOrders ++ legs.submitted, bnbCalls ++ legs.calls, legs.st, .error e⟩
    | .ok _ =>
      let lastAsset := path.getLastD ""
      let final := env.assetBalance lastAsset
      ⟨bnbOrders ++ legs.submitted,
       bnbCalls ++ legs.calls ++ [.assetBalance lastAsset],
       legs.st, .ok (final - trade_amount')⟩

/-- The `retry_on_error` decorator wrapped around the whole
`execute_trade` body: any exception — business rejection included — makes
the wrapper run the entire body again (attempt `n` sees environment
`envs n`), up to `RETRY_TIMES` passes in total.  Orders and exchange
calls of every pass accumulate, since submitted orders are real side
effects that a retry cannot undo. -/
def execute_trade_retry (envs : Nat → ExecEnv) (path : List String) :
    Nat → Nat → Cache → List TradeOrder → List ApiCall → ExecResult
  | attempt, 0, st, subm, calls =>
    let r := execute_trade_body (envs attempt) st path
    ⟨subm ++ r.submitted, calls ++ r.calls, r.st, r.outcome⟩
  | attempt, fuel + 1, st, subm, calls =>
    let r := execute_trade_body (envs attempt) st path
    match r.outcome with
    | .ok p => ⟨subm ++ r.submitted, calls ++ r.calls, r.st, .ok p⟩
    | .error _ =>
      execute_trade_retry envs path (attempt + 1) fuel r.st
        (subm ++ r.submitted) (calls ++ r.calls)

/-- `execute_trade(path)` as called by the loop: the decorated body,
starting at attempt 0 with `RETRY_TIMES - 1` retries in reserve. -/
def execute_trade (envs : Nat → ExecEnv) (path : List String) (st : Cache) :
    ExecResult :=
  execute_trade_retry envs path 0 (RETRY_TIMES - 1) st [] []

/-- Proof-side value of one evaluation leg: `legStep` stripped of the
cache threading (the cache never influences the computed value). -/
def legValue (md : MarketData) (amount : ℚ) (a b : String) : Option ℚ :=
  let symbol := a ++ b
  if is_pair_tradable md symbol then
    match md.ticker symbol with
    | none => none
    | some p =>
      if p = 0 then none
      else
        match md.orderBook symbol with
        | none => none
        | some best =>
          if SLIPPAGE_TOLERANCE < |best - p| / p then none
          else some (amount * p * (1 - TRADE_FEE))
  else none

/-- Proof-side value of the evaluation leg loop. -/
def runVal (md : MarketData) : List String → ℚ → Option ℚ
  | a :: b :: rest, amount =>
    match legValue md amount a b with
    | none => none
    | some amt => runVal md (b :: rest) amt
  | _, _amount => some _amount

/-- Proof-side value of `calculate_profit`. -/
def profitVal (md : MarketData) (path : List String) : ℚ :=
  let amount := md.latestBalance * (8 / 10)
  if amount < MIN_TRADE_AMOUNT then 0
  else
    let amount' := if MAX_TRADE_AMOUNT < amount then MAX_TRADE_AMOUNT else amount
    match runVal md path amount' with
    | none => 0
    | some final => final - amount'

/-- Whether one evaluation leg passes every check of `calculate_profit`
(tradable pair, truthy price, order book present, slippage within
tolerance). -/
def legPasses (md : MarketData) (a b : String) : Bool :=
  is_pair_tradable md (a ++ b) &&
    match md.ticker (a ++ b), md.orderBook (a ++ b) with
    | some p, some best =>
      decide (p ≠ 0) && decide (|best - p| / p ≤ SLIPPAGE_TOLERANCE)
    | _, _ => false

/-- The ticker price of a leg's concatenated symbol (0 when absent). -/
def legPrice (md : MarketData) (a b : String) : ℚ :=
  (md.ticker (a ++ b)).getD 0

/-- Whether every leg of a path passes the evaluation checks. -/
def legsOK (md : MarketData) : List String → Bool
  | a :: b :: rest => legPasses md a b && legsOK md (b :: rest)
  | _ => true

/-- The factor the leg loop applies to the principal: the product over
legs of `price * (1 - TRADE_FEE)`. -/
def legProduct (md : MarketData) : List String → ℚ
  | a :: b :: rest => legPrice md a b * (1 - TRADE_FEE) * legProduct md (b :: rest)
  | _ => 1

/-- The fold of `select_best_arbitrage_path` (source lines 286-309) over
the remaining paths, carrying the best path and profit so far and the
`last_prices` cache: a candidate replaces the incumbent only when its
profit is strictly greater. -/
def selectGo (md : MarketData) (st : Cache) :
    List (List String) → Option (List String) → ℚ →
      (Option (List String) × ℚ) × Cache
  | [], best, bp => ((best, bp), st)
  | p :: rest, best, bp =>
    let r := calculate_profit md st p
    if bp < r.1 then selectGo md r.2 rest (some p) r.1
    else selectGo md r.2 rest best bp

/-- `select_best_arbitrage_path()`: iterate the configured `TRADE_PATHS`
starting from no path and best profit 0. -/
def select_best_arbitrage_path (md : MarketData) (st : Cache) :
    (Option (List String) × ℚ) × Cache :=
  selectGo md st TRADE_PATHS none 0

/-- Proof-side pure version of the selection fold over a profit
assignment. -/
def selectPure (f : List String → ℚ) :
    List (List String) → Option (List String) → ℚ →
      Option (List String) × ℚ
  | [], best, bp => (best, bp)
  | p :: rest, best, bp =>
    if bp < f p then selectPure f rest (some p) (f p)
    else selectPure f rest best bp

/-- The decision made by one iteration of `arbitrage_loop` (source lines
540-556): skip when the USDT balance is below `MIN_TRADE_AMOUNT`,
otherwise call `execute_trade` exactly when the best profit over
`TRADE_PATHS` strictly exceeds `MIN_PROFIT_THRESHOLD`. -/
def arbitrage_cycle_executes (env : ExecEnv) (st : Cache) : Bool :=
  if env.assetBalance "USDT" < MIN_TRADE_AMOUNT then false
  else decide (MIN_PROFIT_THRESHOLD < ((select_best_arbitrage_path env.md st).1).2)

/-- Modelled from the spec: the context a RiskGate inspects (section 4.3)
— starting-asset balance, trailing-24h cumulative notional, and
short-horizon volatility.  The source computes no trailing notional and
no volatility, so these fields have no counterpart in the code. -/
structure RiskContext where
  startingAssetBalance : ℚ
  trailingNotional24h : ℚ
  shortHorizonVolatility : ℚ

/-- Modelled from the spec: the RiskGate configuration (section 4.3 and
section 6): minimum trade amount, daily volume cap, volatility cap. -/
structure RiskConfig where
  minTradeAmount : ℚ
  dailyVolumeCap : ℚ
  maxVolatility : ℚ

/-- Modelled from the spec: `allow(context)` of the RiskGate — all three
checks must pass.  There is no corresponding code in the source. -/
def riskGateAllow (cfg : RiskConfig) (ctx : RiskContext) : Bool :=
  decide (cfg.minTradeAmount ≤ ctx.startingAssetBalance) &&
    decide (ctx.trailingNotional24h ≤ cfg.dailyVolumeCap) &&
    decide (ctx.shortHorizonVolatility ≤ cfg.maxVolatility)

/-- Modelled from the spec: the rate-limiter capacity of the testable
property in section 8 — at most 10 admissions per 1000 ms window.  The
source contains no rate limiter. -/
def specApiWindowCapacity : Nat := 10

/-- A trade-stream message: the source's `on_message` parses `data['s']`
(symbol) and `data['p']` (price); the payload's event-time field `E` is
present on the wire but never read by the handler. -/
structure WsMsg where
  s : String
  p : ℚ
  E : ℤ

/-- The per-instance `last_prices` dictionary of `PriceMonitor`. -/
structure PMState where
  last_prices : String → Option ℚ

/-- `PriceMonitor.on_message` (source lines 456-477): stores the incoming
price under its symbol unconditionally (`self.last_prices[symbol] =
price`); the price-change comparison only logs.  No timestamp is read or
compared. -/
def PriceMonitor.on_message (st : PMState) (m : WsMsg) : PMState :=
  ⟨cacheInsert st.last_prices m.s m.p⟩

/-- A fresh `PriceMonitor` state (empty `last_prices`). -/
def pm0 : PMState := ⟨fun _ => none⟩

/-- The configured path `USDT → BTC → ETH → USDT` (third entry of
`TRADE_PATHS`). -/
def pathUBE : List String := ["USDT", "BTC", "ETH", "USDT"]

/-- Market data for the spec's worked example: the real exchange symbols
`BTCUSDT = 50000`, `ETHBTC = 0.06`, `ETHUSDT = 3100`; sheet balance 125,
so the principal is 100. -/
def mdC1a : MarketData :=
  ⟨["BTCUSDT", "ETHBTC", "ETHUSDT"],
   fun s =>
     if s = "BTCUSDT" then some 50000
     else if s = "ETHBTC" then some (3 / 50)
     else if s = "ETHUSDT" then some 3100 else none,
   fun s =>
     if s = "BTCUSDT" then some 50000
     else if s = "ETHBTC" then some (3 / 50)
     else if s = "ETHUSDT" then some 3100 else none,
   125⟩

/-- Market data for a hypothetical exchange that does list the
concatenated symbol `USDTBTC` at price 50000; sheet balance 125. -/
def mdC1b : MarketData :=
  ⟨["USDTBTC"],
   fun s => if s = "USDTBTC" then some 50000 else none,
   fun s => if s = "USDTBTC" then some 50000 else none,
   125⟩

/-- Market data under which every leg of `pathUBE` passes: the
concatenated symbols are listed, order book equals ticker (zero
slippage), prices 2, 3, 1; sheet balance 125. -/
def mdProd : MarketData :=
  ⟨["USDTBTC", "BTCETH", "ETHUSDT"],
   fun s =>
     if s = "USDTBTC" then some 2
     else if s = "BTCETH" then some 3
     else if s = "ETHUSDT" then some 1 else none,
   fun s =>
     if s = "USDTBTC" then some 2
     else if s = "BTCETH" then some 3
     else if s = "ETHUSDT" then some 1 else none,
   125⟩

/-- Market data with the pairs listed but every ticker unavailable. -/
def mdC5 : MarketData :=
  ⟨["USDTBTC", "BTCETH", "ETHUSDT"], fun _ => none, fun _ => none, 125⟩

/-- Market data with nothing listed and no prices. -/
def mdNone : MarketData := ⟨[], fun _ => none, fun _ => none, 125⟩

/-- A wrapped call that raises a business rejection (`ValueError`) on its
first attempt and succeeds on its second. -/
def fC2 : Nat → Except PyError ℚ :=
  fun n => if n = 0 then .error .belowMinimum else .ok 42

/-- A wrapped call that fails with a network error on every attempt. -/
def fC2net : Nat → Except PyError ℚ := fun _ => .error .networkError

/-- Market data in which leg 1 of `pathUBE` fills but leg 2 (`BTCETH`)
has best ask 1 against ticker 2 — slippage 50%, far above tolerance. -/
def mdSlip : MarketData :=
  ⟨["USDTBTC", "BTCETH", "ETHUSDT"],
   fun s =>
     if s = "USDTBTC" then some 2
     else if s = "BTCETH" then some 2
     else if s = "ETHUSDT" then some 1 else none,
   fun s =>
     if s = "USDTBTC" then some 2
     else if s = "BTCETH" then some 1
     else if s = "ETHUSDT" then some 1 else none,
   125⟩

/-- Execution environment over `mdSlip`: BNB balance 1 (no fee-funding
buy), every market buy fills its full quote amount. -/
def envC3 : ExecEnv :=
  ⟨mdSlip, fun a => if a = "BNB" then 1 else 0, fun _ q => q⟩

/-- The same environment on every retry attempt. -/
def envsC3 : Nat → ExecEnv := fun _ => envC3

/-- Execution environment over `mdProd`: BNB balance 1, final balances
600, full fills. -/
def envC6 : ExecEnv :=
  ⟨mdProd, fun a => if a = "BNB" then 1 else 600, fun _ q => q⟩

/-- The same environment on every retry attempt. -/
def envsC6 : Nat → ExecEnv := fun _ => envC6

/-- Loop environment over `mdProd` with a USDT balance of 50. -/
def envC4 : ExecEnv :=
  ⟨mdProd, fun a => if a = "BNB" then 1 else 50, fun _ q => q⟩

/-- A RiskGate configuration: minimum trade 10 USDT, daily cap 10000
USDT, volatility cap 5%. -/
def cfgC4 : RiskConfig := ⟨10, 10000, 5⟩

/-- A RiskGate context in which both the daily-notional and the
volatility checks fail while the balance check passes. -/
def ctxC4 : RiskContext := ⟨50, 20000, 50⟩

/-- Market data with sheet balance 10, so the principal 8 is below the
minimum trade amount. -/
def mdLow : MarketData := ⟨[], fun _ => none, fun _ => none, 10⟩

/-- Execution environments over `mdLow` on every attempt. -/
def envsLow : Nat → ExecEnv :=
  fun _ => ⟨mdLow, fun _ => 0, fun _ q => q⟩

/-- Market data with sheet balance 2000, so the raw principal 1600
exceeds the maximum trade amount. -/
def mdHigh : MarketData := ⟨[], fun _ => none, fun _ => none, 2000⟩

/-- Execution environment with sheet balance 2000 over the `mdProd`
market: the first leg passes and must be submitted with the clamped
quote amount. -/
def envHigh : ExecEnv :=
  ⟨⟨mdProd.symbols, mdProd.ticker, mdProd.orderBook, 2000⟩,
   fun a => if a = "BNB" then 1 else 0, fun _ q => q⟩

/-- First message: BTCUSDT at 100, event time 10. -/
def msgA : WsMsg := ⟨"BTCUSDT", 100, 10⟩

/-- Second message: BTCUSDT at 90, event time 5 — observed earlier than
`msgA` but delivered later. -/
def msgB : WsMsg := ⟨"BTCUSDT", 90, 5⟩

theorem legStep_fst (md : MarketData) (st : Cache) (amount : ℚ) (a b : String) :
    (legStep md st amount a b).1 = legValue md amount a b := by
  unfold legStep legValue get_price
  cases hmem : is_pair_tradable md (a ++ b) <;> simp [hmem]
  cases ht : md.ticker (a ++ b) <;> simp [ht]
  split
  · simp
  · cases hob : md.orderBook (a ++ b) <;> simp [hob]
    split <;> simp

theorem runLegs_fst (md : MarketData) :
    ∀ (path : List String) (st : Cache) (amount : ℚ),
      (runLegs md st path amount).1 = runVal md path amount := by
  intro path
  induction path with
  | nil => intro st amount; simp [runLegs, runVal]
  | cons a tail ih =>
    intro st amount
    cases tail with
    | nil => simp [runLegs, runVal]
    | cons b rest =>
      have hfst := legStep_fst md st amount a b
      unfold runLegs runVal
      cases hls : legStep md st amount a b with
      | mk v st' =>
        rw [hls] at hfst
        cases v with
        | none => simp [← hfst]
        | some amt => simp [← hfst, ih]

theorem calculate_profit_fst (md : MarketData) (st : Cache) (path : List String) :
    (calculate_profit md st path).1 = profitVal md path := by
  unfold calculate_profit profitVal
  dsimp only
  split
  · rfl
  · have h := runLegs_fst md path st
      (if MAX_TRADE_AMOUNT < md.latestBalance * (8 / 10) then MAX_TRADE_AMOUNT
       else md.latestBalance * (8 / 10))
    cases hr : runLegs md st path
        (if MAX_TRADE_AMOUNT < md.latestBalance * (8 / 10) then MAX_TRADE_AMOUNT
         else md.latestBalance * (8 / 10)) with
    | mk v st' =>
      rw [hr] at h
      rw [← h]
      cases v <;> rfl

/-- Claim C9: path evaluation is deterministic.  The profit computed by
`calculate_profit` does not depend on the mutable `last_prices` cache,
the only mutable state the function touches, so two calls with the same
path over unchanged market data — in particular a second call that sees
the cache the first call left behind — return the identical profit. -/
theorem C9_determinism (md : MarketData) (st₁ st₂ : Cache) (path : List String) :
    (calculate_profit md st₁ path).1 = (calculate_profit md st₂ path).1 ∧
    (calculate_profit md ((calculate_profit md st₁ path).2) path).1 =
      (calculate_profit md st₁ path).1 := by
  refine ⟨?_, ?_⟩ <;> simp [calculate_profit_fst]

theorem runVal_missing (md : MarketData) :
    ∀ (path : List String) (amt : ℚ),
      (∃ s ∈ legSymbols path, md.ticker s = none) → runVal md path amt = none := by
  intro path
  induction path with
  | nil => intro amt h; simp [legSymbols] at h
  | cons a tail ih =>
    intro amt h
    cases tail with
    | nil => simp [legSymbols] at h
    | cons b rest =>
      rcases h with ⟨s, hs, hnone⟩
      rw [legSymbols] at hs
      unfold runVal
      rcases List.mem_cons.mp hs with hs' | hs'
      · subst hs'
        have hv : legValue md amt a b = none := by
          unfold legValue
          simp [hnone]
        simp [hv]
      · cases hv : legValue md amt a b with
        | none => simp
        | some amt' => simp [ih amt' ⟨s, hs', hnone⟩]

/-- Claim C5: if any quote required by the path is unavailable (the
ticker call yields nothing, so `get_price` returns `None`), evaluation
short-circuits and returns profit 0 — the code's representation of "no
opportunity"; the embedded function is total, matching the source, whose
whole body is wrapped in a `try` that converts every failure into the
return value 0 instead of propagating an exception. -/
theorem C5_missing_price_zero (md : MarketData) (st : Cache)
    (path : List String)
    (h : ∃ s ∈ legSymbols path, md.ticker s = none) :
    (calculate_profit md st path).1 = 0 := by
  rw [calculate_profit_fst]
  unfold profitVal
  dsimp only
  split
  · rfl
  · rw [runVal_missing md path _ h]

/-- Witness for C5 at a concrete market with listed pairs but no
available quotes. -/
theorem C5_witness :
    (∃ s ∈ legSymbols pathUBE, mdC5.ticker s = none) ∧
    (calculate_profit mdC5 cache0 pathUBE).1 = 0 :=
  ⟨by decide, C5_missing_price_zero mdC5 cache0 pathUBE (by decide)⟩

/-- Claim C8 counterexample: `PriceMonitor.on_message` applies an
out-of-order update instead of dropping it.  After a quote for BTCUSDT
at price 100 with event time 10, a late-delivered quote at price 90 with
the older event time 5 replaces the stored value — the stored quote
becomes 90, not the 100 the claim's monotonic-timestamp guard would
keep. -/
theorem C8_counterexample :
    (PriceMonitor.on_message (PriceMonitor.on_message pm0 msgA) msgB).last_prices
        "BTCUSDT" = some 90 ∧
    msgB.E < msgA.E ∧
    (PriceMonitor.on_message (PriceMonitor.on_message pm0 msgA) msgB).last_prices
        "BTCUSDT" ≠ some 100 := by
  refine ⟨by decide, by decide, by decide⟩

/-- Claim C8 amended: `on_message` stores the incoming price for its
symbol unconditionally — it reads no timestamp and performs no
comparison, so each delivered message overwrites the stored quote for
its pair (out-of-order deliveries included) and leaves other pairs
untouched; the last delivered message always wins. -/
theorem C8_amended_overwrite (st : PMState) (m m' : WsMsg) :
    (PriceMonitor.on_message st m).last_prices m.s = some m.p ∧
    (∀ sym, sym ≠ m.s →
      (PriceMonitor.on_message st m).last_prices sym = st.last_prices sym) ∧
    (m'.s = m.s →
      (PriceMonitor.on_message (PriceMonitor.on_message st m') m).last_prices
          m.s = some m.p) := by
  refine ⟨?_, ?_, ?_⟩
  · simp [PriceMonitor.on_message, cacheInsert]
  · intro sym hsym
    simp [PriceMonitor.on_message, cacheInsert, hsym]
  · intro _
    simp [PriceMonitor.on_message, cacheInsert]

/-- Witness for the amended C8 at the concrete message pair. -/
theorem C8_amended_witness :
    (PriceMonitor.on_message pm0 msgA).last_prices "BTCUSDT" = some 100 ∧
    (PriceMonitor.on_message pm0 msgA).last_prices "ETHUSDT" = none ∧
    (PriceMonitor.on_message (PriceMonitor.on_message pm0 msgA) msgB).last_prices
        "BTCUSDT" = some 90 :=
  ⟨(C8_amended_overwrite pm0 msgA msgB).1,
   ((C8_amended_overwrite pm0 msgA msgB).2.1 "ETHUSDT" (by decide)).trans rfl,
   (C8_amended_overwrite (PriceMonitor.on_message pm0 msgA) msgB msgA).1⟩

/-- Claim C2 counterexample: a business rejection is retried.  `fC2`
raises a `ValueError`-class rejection on its first attempt; the
decorator does not treat it as terminal — it sleeps the backoff and
retries, and the wrapped call returns the second attempt's success. -/
theorem C2_counterexample :
    fC2 0 = .error .belowMinimum ∧
    PyError.isValueError .belowMinimum = true ∧
    retry_on_error fC2 = (.ok 42, [1]) :=
  ⟨rfl, rfl, rfl⟩

/-- Claim C2 amended: `retry_on_error` retries uniformly on every
exception type — business rejections (`ValueError`: insufficient amount,
invalid symbol, excessive slippage) exactly like transient network
failures — with exponential backoff `2 ^ attempt` up to `RETRY_TIMES`
attempts in total, after which the last exception is re-raised; and
since the decorator wraps the whole `execute_trade`, a mid-path
rejection re-runs the entire trade rather than aborting it. -/
theorem C2_amended_retry_uniform (f : Nat → Except PyError ℚ)
    (g : Nat → PyError) (e : PyError) (a : ℚ) :
    ((f 0 = .error e ∧ f 1 = .ok a) → retry_on_error f = (.ok a, [1])) ∧
    ((∀ n, n < RETRY_TIMES → f n = .error (g n)) →
      retry_on_error f = (.error (g 2), [1, 2])) := by
  constructor
  · rintro ⟨h0, h1⟩
    show retryFrom f 0 (RETRY_TIMES - 1) = (.ok a, [1])
    norm_num [RETRY_TIMES]
    rw [retryFrom, h0]
    rw [retryFrom, h1]
    rfl
  · intro h
    have h0 := h 0 (by norm_num [RETRY_TIMES])
    have h1 := h 1 (by norm_num [RETRY_TIMES])
    have h2 := h 2 (by norm_num [RETRY_TIMES])
    show retryFrom f 0 (RETRY_TIMES - 1) = (.error (g 2), [1, 2])
    norm_num [RETRY_TIMES]
    rw [retryFrom, h0]
    rw [retryFrom, h1]
    rw [retryFrom, h2]
    rfl

/-- Witness for the amended C2: a first-attempt rejection retried into a
success with one backoff sleep, and a persistent network failure
exhausted after three attempts with sleeps 1 and 2 seconds. -/
theorem C2_amended_witness :
    retry_on_error fC2 = (.ok 42, [1]) ∧
    retry_on_error fC2net = (.error .networkError, [1, 2]) :=
  ⟨(C2_amended_retry_uniform fC2 (fun _ => .networkError) .belowMinimum 42).1
      ⟨rfl, rfl⟩,
   (C2_amended_retry_uniform fC2net (fun _ => .networkError) .belowMinimum 42).2
      (fun _ _ => rfl)⟩

theorem legValue_passes (md : MarketData) (amt : ℚ) (a b : String)
    (h : legPasses md a b = true) :
    legValue md amt a b = some (amt * legPrice md a b * (1 - TRADE_FEE)) := by
  unfold legPasses at h
  unfold legValue legPrice
  cases hmem : is_pair_tradable md (a ++ b) <;> rw [hmem] at h
  · simp at h
  · simp only [Bool.true_and] at h
    cases ht : md.ticker (a ++ b) <;> rw [ht] at h
    · simp at h
    · cases hob : md.orderBook (a ++ b) <;> rw [hob] at h
      · simp at h
      · simp only [Bool.and_eq_true, decide_eq_true_eq] at h
        obtain ⟨hp0, hslip⟩ := h
        simp [hmem, ht, hob, hp0, not_lt.mpr hslip]

theorem runVal_product (md : MarketData) :
    ∀ (path : List String) (amt : ℚ), legsOK md path = true →
      runVal md path amt = some (amt * legProduct md path) := by
  intro path
  induction path with
  | nil => intro amt _; simp [runVal, legProduct]
  | cons a tail ih =>
    intro amt h
    cases tail with
    | nil => simp [runVal, legProduct]
    | cons b rest =>
      rw [legsOK] at h
      rw [Bool.and_eq_true] at h
      obtain ⟨h1, h2⟩ := h
      unfold runVal
      rw [legValue_passes md amt a b h1]
      show runVal md (b :: rest) (amt * legPrice md a b * (1 - TRADE_FEE)) = _
      rw [ih _ h2, legProduct]
      simp only [Option.some.injEq]
      ring

/-- Claim C1 counterexample: on the spec's worked example (`BTCUSDT =
50000`, `ETHBTC = 0.06`, `ETHUSDT = 3100`, principal 100, path USDT →
BTC → ETH → USDT) the first leg does not convert 100 USDT into 100/50000
= 0.002 BTC.  The code builds the leg symbol by concatenation
(`USDTBTC`), which is not a listed pair, so the leg yields nothing and
the evaluation returns 0; and even on an exchange that did list
`USDTBTC` at 50000 the code would multiply, producing 100 * 50000 *
(1 - 0.00075) = 4996250, not 0.002. -/
theorem C1_counterexample :
    (legStep mdC1a cache0 100 "USDT" "BTC").1 = none ∧
    (calculate_profit mdC1a cache0 pathUBE).1 = 0 ∧
    (legStep mdC1b cache0 100 "USDT" "BTC").1 = some 4996250 ∧
    (4996250 : ℚ) ≠ 100 / 50000 := by
  refine ⟨?_, ?_, ?_, by norm_num⟩
  · simp [legStep, is_pair_tradable, mdC1a]
  · simp [calculate_profit, runLegs, legStep, get_price, is_pair_tradable,
      mdC1a, pathUBE, cacheInsert]
  · simp [legStep, get_price, is_pair_tradable, mdC1b, SLIPPAGE_TOLERANCE,
      TRADE_FEE, cacheInsert]
    norm_num

/-- Claim C1 amended: evaluation computes the running amount leg by leg,
but with no direction resolution and no division: each leg's symbol is
the plain concatenation `path[i] + path[i+1]` and the running amount is
always multiplied by `price * (1 - TRADE_FEE)`, so when every leg passes
its checks the final expected profit is the (clamped) principal times
the product of `price * (1 - TRADE_FEE)` over the legs, minus the
principal. -/
theorem C1_amended_product_form (md : MarketData) (st : Cache)
    (path : List String) (h : legsOK md path = true)
    (hmin : MIN_TRADE_AMOUNT ≤ md.latestBalance * (8 / 10)) :
    (calculate_profit md st path).1 =
      (if MAX_TRADE_AMOUNT < md.latestBalance * (8 / 10) then MAX_TRADE_AMOUNT
       else md.latestBalance * (8 / 10)) * legProduct md path -
      (if MAX_TRADE_AMOUNT < md.latestBalance * (8 / 10) then MAX_TRADE_AMOUNT
       else md.latestBalance * (8 / 10)) := by
  rw [calculate_profit_fst]
  unfold profitVal
  dsimp only
  rw [if_neg (not_lt.mpr hmin)]
  rw [runVal_product md path _ h]

/-- Witness for the amended C1 at a concrete market in which every leg
of the configured path passes (prices 2, 3, 1 with zero slippage,
principal 100). -/
theorem C1_amended_witness :
    legsOK mdProd pathUBE = true ∧
    (calculate_profit mdProd cache0 pathUBE).1 =
      100 * legProduct mdProd pathUBE - 100 := by
  have hok : legsOK mdProd pathUBE = true := by
    simp [legsOK, legPasses, is_pair_tradable, mdProd, pathUBE,
      SLIPPAGE_TOLERANCE]
    norm_num
  refine ⟨hok, ?_⟩
  have h := C1_amended_product_form mdProd cache0 pathUBE hok
    (by norm_num [MIN_TRADE_AMOUNT, mdProd])
  rw [h]
  norm_num [MAX_TRADE_AMOUNT, mdProd]

theorem pathProfit_eq (md : MarketData) (st : Cache) (p : List String) :
    (calculate_profit md st p).1 = pathProfit md p := by
  rw [calculate_profit_fst, pathProfit, calculate_profit_fst]

theorem selectGo_pure (md : MarketData) :
    ∀ (paths : List (List String)) (st : Cache) (best : Option (List String))
      (bp : ℚ),
      (selectGo md st paths best bp).1 = selectPure (pathProfit md) paths best bp := by
  intro paths
  induction paths with
  | nil => intro st best bp; rfl
  | cons p rest ih =>
    intro st best bp
    unfold selectGo selectPure
    dsimp only
    rw [pathProfit_eq md st p]
    by_cases h : bp < pathProfit md p
    · rw [if_pos h, if_pos h]
      exact ih _ _ _
    · rw [if_neg h, if_neg h]
      exact ih _ _ _

theorem selectPure_stop (f : List String → ℚ) :
    ∀ (paths : List (List String)) (best : Option (List String)) (bp : ℚ),
      (∀ p ∈ paths, f p ≤ bp) → selectPure f paths best bp = (best, bp) := by
  intro paths
  induction paths with
  | nil => intro best bp _; rfl
  | cons p rest ih =>
    intro best bp h
    unfold selectPure
    rw [if_neg (not_lt.mpr (h p (List.mem_cons_self p rest)))]
    exact ih best bp (fun q hq => h q (List.mem_cons_of_mem p hq))

theorem selectPure_some (f : List String → ℚ) :
    ∀ (paths : List (List String)) (best : Option (List String)) (bp : ℚ)
      (p : List String),
      (selectPure f paths best bp).1 = some p →
      (best = some p ∧ (selectPure f paths best bp).2 = bp ∧
        ∀ q ∈ paths, f q ≤ bp) ∨
      (p ∈ paths ∧ bp < f p ∧ (selectPure f paths best bp).2 = f p ∧
        (∀ q ∈ paths, f q ≤ f p) ∧
        ∃ l₁ l₂, paths = l₁ ++ p :: l₂ ∧ ∀ q ∈ l₁, f q < f p) := by
  intro paths
  induction paths with
  | nil =>
    intro best bp p h
    left
    exact ⟨h, rfl, by simp⟩
  | cons p₀ rest ih =>
    intro best bp p h
    by_cases hlt : bp < f p₀
    · rw [selectPure, if_pos hlt] at h ⊢
      rcases ih (some p₀) (f p₀) p h with
        ⟨hbest, hsnd, hall⟩ | ⟨hmem, hgt, hsnd, hall, l₁, l₂, hsplit, hstrict⟩
      · obtain rfl : p₀ = p := Option.some.inj hbest
        right
        refine ⟨List.mem_cons_self p₀ rest, hlt, hsnd, ?_, [], rest, rfl, by simp⟩
        intro q hq
        rcases List.mem_cons.mp hq with rfl | hq
        · exact le_refl _
        · exact hall q hq
      · right
        refine ⟨List.mem_cons_of_mem _ hmem, lt_trans hlt hgt, hsnd, ?_,
          p₀ :: l₁, l₂, by simp [hsplit], ?_⟩
        · intro q hq
          rcases List.mem_cons.mp hq with rfl | hq
          · exact le_of_lt hgt
          · exact hall q hq
        · intro q hq
          rcases List.mem_cons.mp hq with rfl | hq
          · exact hgt
          · exact hstrict q hq
    · rw [selectPure, if_neg hlt] at h ⊢
      rcases ih best bp p h with
        ⟨hbest, hsnd, hall⟩ | ⟨hmem, hgt, hsnd, hall, l₁, l₂, hsplit, hstrict⟩
      · left
        refine ⟨hbest, hsnd, ?_⟩
        intro q hq
        rcases List.mem_cons.mp hq with rfl | hq
        · exact not_lt.mp hlt
        · exact hall q hq
      · right
        have hp₀ : f p₀ < f p := lt_of_le_of_lt (not_lt.mp hlt) hgt
        refine ⟨List.mem_cons_of_mem _ hmem, hgt, hsnd, ?_,
          p₀ :: l₁, l₂, by simp [hsplit], ?_⟩
        · intro q hq
          rcases List.mem_cons.mp hq with rfl | hq
          · exact le_of_lt hp₀
          · exact hall q hq
        · intro q hq
          rcases List.mem_cons.mp hq with rfl | hq
          · exact hp₀
          · exact hstrict q hq

theorem selectPure_snd (f : List String → ℚ) :
    ∀ (paths : List (List String)) (best : Option (List String)) (bp : ℚ),
      (selectPure f paths best bp).2 =
        paths.foldl (fun acc q => max acc (f q)) bp := by
  intro paths
  induction paths with
  | nil => intro best bp; rfl
  | cons p rest ih =>
    intro best bp
    unfold selectPure
    by_cases h : bp < f p
    · rw [if_pos h, ih, List.foldl_cons]
      congr 1
      exact (max_eq_right (le_of_lt h)).symm
    · rw [if_neg h, ih, List.foldl_cons]
      congr 1
      exact (max_eq_left (not_lt.mp h)).symm

theorem foldl_max_lt (f : List String → ℚ) (th : ℚ) :
    ∀ (paths : List (List String)) (bp : ℚ),
      th < paths.foldl (fun acc q => max acc (f q)) bp ↔
        th < bp ∨ ∃ p ∈ paths, th < f p := by
  intro paths
  induction paths with
  | nil => intro bp; simp
  | cons p rest ih =>
    intro bp
    rw [List.foldl_cons, ih]
    constructor
    · rintro (h | h)
      · rcases lt_max_iff.mp h with h | h
        · exact Or.inl h
        · exact Or.inr ⟨p, List.mem_cons_self p rest, h⟩
      · obtain ⟨q, hq, hlt⟩ := h
        exact Or.inr ⟨q, List.mem_cons_of_mem _ hq, hlt⟩
    · rintro (h | ⟨q, hq, hlt⟩)
      · exact Or.inl (lt_max_iff.mpr (Or.inl h))
      · rcases List.mem_cons.mp hq with rfl | hq
        · exact Or.inl (lt_max_iff.mpr (Or.inr hlt))
        · exact Or.inr ⟨q, hq, hlt⟩

/-- Claim C7: best-path selection over the configured `TRADE_PATHS` is a
deterministic fold that replaces the incumbent only on strictly greater
profit: whatever path is selected has strictly positive profit, its
profit is the reported best profit, no configured path beats it, and
every path declared before it in the configuration has strictly smaller
profit (so an equal-profit tie keeps the earlier path); if no path has
strictly positive profit, no path is selected and the best profit is
0. -/
theorem C7_selection (md : MarketData) (st : Cache) :
    ((∀ p ∈ TRADE_PATHS, pathProfit md p ≤ 0) →
      (select_best_arbitrage_path md st).1 = (none, 0)) ∧
    (∀ p, ((select_best_arbitrage_path md st).1).1 = some p →
      p ∈ TRADE_PATHS ∧ 0 < pathProfit md p ∧
      ((select_best_arbitrage_path md st).1).2 = pathProfit md p ∧
      (∀ q ∈ TRADE_PATHS, pathProfit md q ≤ pathProfit md p) ∧
      ∃ l₁ l₂, TRADE_PATHS = l₁ ++ p :: l₂ ∧
        ∀ q ∈ l₁, pathProfit md q < pathProfit md p) := by
  constructor
  · intro h
    rw [select_best_arbitrage_path, selectGo_pure]
    exact selectPure_stop _ _ _ _ h
  · intro p h
    rw [select_best_arbitrage_path, selectGo_pure] at h
    rcases selectPure_some (pathProfit md) TRADE_PATHS none 0 p h with
      ⟨hbest, _, _⟩ | ⟨hmem, hpos, hsnd, hall, hsplit⟩
    · exact absurd hbest (by simp)
    · rw [select_best_arbitrage_path, selectGo_pure]
      exact ⟨hmem, hpos, hsnd, hall, hsplit⟩

theorem mdNone_profit_zero (p : List String) : pathProfit mdNone p ≤ 0 := by
  cases p with
  | nil =>
    simp [pathProfit, calculate_profit, runLegs, mdNone, MIN_TRADE_AMOUNT,
      MAX_TRADE_AMOUNT]
  | cons a tail =>
    cases tail with
    | nil =>
      simp [pathProfit, calculate_profit, runLegs, mdNone, MIN_TRADE_AMOUNT,
        MAX_TRADE_AMOUNT]
    | cons b rest =>
      simp [pathProfit, calculate_profit, runLegs, legStep, is_pair_tradable,
        mdNone]

/-- Witness for C7: with no market data every path's profit is 0 and no
path is selected; under `mdProd` the third configured path is selected
with its strictly positive profit reported as the best profit. -/
theorem C7_witness :
    (select_best_arbitrage_path mdNone cache0).1 = (none, 0) ∧
    pathUBE ∈ TRADE_PATHS ∧ 0 < pathProfit mdProd pathUBE ∧
    ((select_best_arbitrage_path mdProd cache0).1).2 = pathProfit mdProd pathUBE := by
  have hsel : ((select_best_arbitrage_path mdProd cache0).1).1 = some pathUBE := by
    simp [select_best_arbitrage_path, selectGo, TRADE_PATHS, calculate_profit,
      runLegs, legStep, get_price, is_pair_tradable, mdProd, cacheInsert,
      MIN_TRADE_AMOUNT, MAX_TRADE_AMOUNT, SLIPPAGE_TOLERANCE, TRADE_FEE,
      pathUBE, cache0]
    norm_num
  have h2 := (C7_selection mdProd cache0).2 pathUBE hsel
  have h1 := (C7_selection mdNone cache0).1 (fun p _ => mdNone_profit_zero p)
  exact ⟨h1, h2.1, h2.2.1, h2.2.2.1⟩

/-- Claim C4 amended: in every loop cycle, order execution begins exactly
when the USDT account balance is at least `MIN_TRADE_AMOUNT` and some
configured path's evaluated profit strictly exceeds
`MIN_PROFIT_THRESHOLD`.  These are the only gates: the loop performs no
daily-volume or volatility check, so no further condition can prevent
execution. -/
theorem C4_amended_gate_iff (env : ExecEnv) (st : Cache) :
    arbitrage_cycle_executes env st = true ↔
      (MIN_TRADE_AMOUNT ≤ env.assetBalance "USDT" ∧
        ∃ p ∈ TRADE_PATHS, MIN_PROFIT_THRESHOLD < pathProfit env.md p) := by
  unfold arbitrage_cycle_executes
  by_cases hb : env.assetBalance "USDT" < MIN_TRADE_AMOUNT
  · rw [if_pos hb]
    simp [not_le.mpr hb]
  · rw [if_neg hb]
    have hsnd : ((select_best_arbitrage_path env.md st).1).2 =
        TRADE_PATHS.foldl (fun acc q => max acc (pathProfit env.md q)) 0 := by
      rw [select_best_arbitrage_path, selectGo_pure, selectPure_snd]
    simp only [hsnd, decide_eq_true_eq]
    rw [foldl_max_lt]
    have hth : ¬ (MIN_PROFIT_THRESHOLD < (0 : ℚ)) := by
      norm_num [MIN_PROFIT_THRESHOLD]
    simp [hth, not_lt.mp hb]

/-- Claim C4 counterexample: the loop's decision ignores the spec's
RiskGate.  Under `envC4` a cycle starts execution (balance 50,
profitable third path), yet the spec-modelled RiskGate denies the very
same context — its trailing-24h notional (20000) exceeds the daily cap
(10000) and its volatility (50) exceeds the cap (5) — so the claim that
execution begins only when every RiskGate check passes fails on the
code, which implements neither check. -/
theorem C4_counterexample :
    arbitrage_cycle_executes envC4 cache0 = true ∧
    riskGateAllow cfgC4 ctxC4 = false ∧
    ctxC4.startingAssetBalance = envC4.assetBalance "USDT" := by
  refine ⟨?_, by decide, by decide⟩
  rw [C4_amended_gate_iff]
  constructor
  · show MIN_TRADE_AMOUNT ≤ envC4.assetBalance "USDT"
    simp [envC4]
    norm_num [MIN_TRADE_AMOUNT]
  · refine ⟨pathUBE, by decide, ?_⟩
    show MIN_PROFIT_THRESHOLD < pathProfit envC4.md pathUBE
    simp [pathProfit, calculate_profit, runLegs, legStep, get_price,
      is_pair_tradable, envC4, mdProd, cacheInsert, MIN_TRADE_AMOUNT,
      MAX_TRADE_AMOUNT, SLIPPAGE_TOLERANCE, TRADE_FEE, pathUBE, cache0,
      MIN_PROFIT_THRESHOLD]
    norm_num

theorem legsExec_submitted (env : ExecEnv) :
    ∀ (path : List String) (st : Cache) (current : ℚ),
      (∃ t, (legsExec env st current path).submitted.map TradeOrder.symbol ++ t =
          legSymbols path) ∧
      (∀ q, (legsExec env st current path).result = .ok q →
        (legsExec env st current path).submitted.map TradeOrder.symbol =
          legSymbols path) ∧
      (∀ e, (legsExec env st current path).result = .error e →
        ((legsExec env st current path).submitted.map TradeOrder.symbol).length <
          (legSymbols path).length) := by
  intro path
  induction path with
  | nil =>
    intro st current
    refine ⟨⟨[], rfl⟩, fun q _ => rfl, fun e he => ?_⟩
    simp [legsExec] at he
  | cons a tail ih =>
    intro st current
    cases tail with
    | nil =>
      refine ⟨⟨[], rfl⟩, fun q _ => rfl, fun e he => ?_⟩
      simp [legsExec] at he
    | cons b rest =>
      cases hmem : is_pair_tradable env.md (a ++ b) with
      | false =>
        have hE : legsExec env st current (a :: b :: rest) =
            ⟨[], [.exchangeInfo (a ++ b)], st,
             .error (.pairUnavailable (a ++ b))⟩ := by
          simp [legsExec, hmem]
        rw [hE]
        refine ⟨⟨legSymbols (a :: b :: rest), by simp⟩, ?_, ?_⟩
        · intro q hq; simp at hq
        · intro e _; simp [legSymbols]
      | true =>
        cases hob : env.md.orderBook (a ++ b) with
        | none =>
          have hE : legsExec env st current (a :: b :: rest) =
              ⟨[], [.exchangeInfo (a ++ b), .orderBook (a ++ b)], st,
               .error .apiError⟩ := by
            simp [legsExec, hmem, hob]
          rw [hE]
          refine ⟨⟨legSymbols (a :: b :: rest), by simp⟩, ?_, ?_⟩
          · intro q hq; simp at hq
          · intro e _; simp [legSymbols]
        | some best =>
          cases hsb : slipCheckFails best (get_price env.md st (a ++ b)).1 with
          | true =>
            have hE : legsExec env st current (a :: b :: rest) =
                ⟨[], [.exchangeInfo (a ++ b), .orderBook (a ++ b),
                  .ticker (a ++ b)], (get_price env.md st (a ++ b)).2,
                 .error (.slippageTooLarge (a ++ b))⟩ := by
              simp [legsExec, hmem, hob, hsb]
            rw [hE]
            refine ⟨⟨legSymbols (a :: b :: rest), by simp⟩, ?_, ?_⟩
            · intro q hq; simp at hq
            · intro e _; simp [legSymbols]
          | false =>
            by_cases hcur : 0 < current
            · have hE : legsExec env st current (a :: b :: rest) =
                  ⟨⟨a ++ b, current⟩ ::
                    (legsExec env (get_price env.md st (a ++ b)).2
                      (env.executedQty (a ++ b) current) (b :: rest)).submitted,
                   .exchangeInfo (a ++ b) :: .orderBook (a ++ b) ::
                     .ticker (a ++ b) :: .marketBuy (a ++ b) current ::
                     (legsExec env (get_price env.md st (a ++ b)).2
                       (env.executedQty (a ++ b) current) (b :: rest)).calls,
                   (legsExec env (get_price env.md st (a ++ b)).2
                     (env.executedQty (a ++ b) current) (b :: rest)).st,
                   (legsExec env (get_price env.md st (a ++ b)).2
                     (env.executedQty (a ++ b) current) (b :: rest)).result⟩ := by
                simp [legsExec, hmem, hob, hsb, hcur]
              rw [hE]
              obtain ⟨⟨t, ht⟩, hok, herr⟩ :=
                ih (get_price env.md st (a ++ b)).2 (env.executedQty (a ++ b) current)
              refine ⟨⟨t, ?_⟩, ?_, ?_⟩
              · simp only [List.map_cons, List.cons_append, legSymbols]
                exact congrArg (List.cons (a ++ b)) ht
              · intro q hq
                simp only [List.map_cons, legSymbols]
                exact congrArg (List.cons (a ++ b)) (hok q hq)
              · intro e he
                simp only [List.map_cons, List.length_cons, legSymbols]
                exact Nat.succ_lt_succ (herr e he)
            · have hE : legsExec env st current (a :: b :: rest) =
                  ⟨[], [.exchangeInfo (a ++ b), .orderBook (a ++ b),
                    .ticker (a ++ b)], (get_price env.md st (a ++ b)).2,
                   .error .zeroAmount⟩ := by
                simp [legsExec, hmem, hob, hsb, hcur]
              rw [hE]
              refine ⟨⟨legSymbols (a :: b :: rest), by simp⟩, ?_, ?_⟩
              · intro q hq; simp at hq
              · intro e _; simp [legSymbols]

theorem legsExec_calls_ok (env : ExecEnv) :
    ∀ (path : List String) (st : Cache) (current : ℚ) (q : ℚ),
      (legsExec env st current path).result = .ok q →
      (legsExec env st current path).calls.length =
        4 * (legSymbols path).length := by
  intro path
  induction path with
  | nil => intro st current q _; rfl
  | cons a tail ih =>
    intro st current q hq
    cases tail with
    | nil => rfl
    | cons b rest =>
      cases hmem : is_pair_tradable env.md (a ++ b) with
      | false =>
        have hE : (legsExec env st current (a :: b :: rest)).result =
            .error (.pairUnavailable (a ++ b)) := by
          simp [legsExec, hmem]
        rw [hE] at hq
        simp at hq
      | true =>
        cases hob : env.md.orderBook (a ++ b) with
        | none =>
          have hE : (legsExec env st current (a :: b :: rest)).result =
              .error .apiError := by
            simp [legsExec, hmem, hob]
          rw [hE] at hq
          simp at hq
        | some best =>
          cases hsb : slipCheckFails best (get_price env.md st (a ++ b)).1 with
          | true =>
            have hE : (legsExec env st current (a :: b :: rest)).result =
                .error (.slippageTooLarge (a ++ b)) := by
              simp [legsExec, hmem, hob, hsb]
            rw [hE] at hq
            simp at hq
          | false =>
            by_cases hcur : 0 < current
            · have hE : legsExec env st current (a :: b :: rest) =
                  ⟨⟨a ++ b, current⟩ ::
                    (legsExec env (get_price env.md st (a ++ b)).2
                      (env.executedQty (a ++ b) current) (b :: rest)).submitted,
                   .exchangeInfo (a ++ b) :: .orderBook (a ++ b) ::
                     .ticker (a ++ b) :: .marketBuy (a ++ b) current ::
                     (legsExec env (get_price env.md st (a ++ b)).2
                       (env.executedQty (a ++ b) current) (b :: rest)).calls,
                   (legsExec env (get_price env.md st (a ++ b)).2
                     (env.executedQty (a ++ b) current) (b :: rest)).st,
                   (legsExec env (get_price env.md st (a ++ b)).2
                     (env.executedQty (a ++ b) current) (b :: rest)).result⟩ := by
                simp [legsExec, hmem, hob, hsb, hcur]
              rw [hE] at hq ⊢
              have htail := ih (get_price env.md st (a ++ b)).2
                (env.executedQty (a ++ b) current) q hq
              simp only [List.length_cons, legSymbols] at htail ⊢
              omega
            · have hE : (legsExec env st current (a :: b :: rest)).result =
                  .error .zeroAmount := by
                simp [legsExec, hmem, hob, hsb, hcur]
              rw [hE] at hq
              simp at hq

/-- Claim C3 counterexample: under `envsC3` slippage exceeds tolerance at
leg 2 of `USDT → BTC → ETH → USDT` on every pass, yet the decorated
`execute_trade` submits the leg-1 order three times — once per retry of
the whole trade — so the results of legs before the failing leg do not
remain unchanged (fresh orders are submitted for them after the
failure), and the attempt ends as a plain re-raised exception recorded
with the generic failure status, not as a distinct PartialFailure. -/
theorem C3_counterexample :
    (execute_trade envsC3 pathUBE cache0).submitted =
      [⟨"USDTBTC", 100⟩, ⟨"USDTBTC", 100⟩, ⟨"USDTBTC", 100⟩] ∧
    (execute_trade envsC3 pathUBE cache0).outcome =
      .error (.slippageTooLarge "BTCETH") := by
  constructor <;>
    · simp [execute_trade, execute_trade_retry, execute_trade_body, envsC3,
        envC3, mdSlip, calculate_profit, runLegs, legStep, legsExec,
        slipCheckFails, get_price, is_pair_tradable, cacheInsert, pathUBE,
        RETRY_TIMES, MIN_TRADE_AMOUNT, MAX_TRADE_AMOUNT, SLIPPAGE_TOLERANCE,
        TRADE_FEE, cache0]
      norm_num

/-- Claim C3 amended: within a single pass of the leg loop, submissions
are an in-order prefix of the path's legs: whatever happens, the orders
submitted are the symbols of the first consecutive legs of the path in
order (so after a slippage failure at leg i no leg after i is submitted
and no compensating orders exist in the pass); when the loop succeeds
every leg has exactly one order, and when it raises — slippage
included — strictly fewer orders than legs were submitted, the failing
leg's among the missing.  The failure itself, however, propagates to the
whole-trade retry decorator, which re-runs the entire path (see the
counterexample): the pass's failure is recorded with the generic failure
status, and earlier legs are re-submitted on the retries. -/
theorem C3_amended_leg_orders (env : ExecEnv) (st : Cache) (current : ℚ)
    (path : List String) :
    (∃ t, (legsExec env st current path).submitted.map TradeOrder.symbol ++ t =
        legSymbols path) ∧
    (∀ q, (legsExec env st current path).result = .ok q →
      (legsExec env st current path).submitted.map TradeOrder.symbol =
        legSymbols path) ∧
    (∀ e, (legsExec env st current path).result = .error e →
      ((legsExec env st current path).submitted.map TradeOrder.symbol).length <
        (legSymbols path).length) :=
  legsExec_submitted env path st current

/-- Witness for the amended C3: the slippage failure at leg 2 leaves
exactly the leg-1 order submitted in the pass — a strict in-order prefix
of the path's three legs. -/
theorem C3_amended_witness :
    (legsExec envC3 cache0 100 pathUBE).submitted.map TradeOrder.symbol =
      ["USDTBTC"] ∧
    (legsExec envC3 cache0 100 pathUBE).result =
      .error (.slippageTooLarge "BTCETH") ∧
    ((legsExec envC3 cache0 100 pathUBE).submitted.map TradeOrder.symbol).length <
      (legSymbols pathUBE).length := by
  have h1 : (legsExec envC3 cache0 100 pathUBE).result =
      .error (.slippageTooLarge "BTCETH") := by
    simp [legsExec, slipCheckFails, get_price, is_pair_tradable, envC3, mdSlip,
      cacheInsert, pathUBE, SLIPPAGE_TOLERANCE, cache0]
    norm_num
  have h2 : (legsExec envC3 cache0 100 pathUBE).submitted.map TradeOrder.symbol =
      ["USDTBTC"] := by
    simp [legsExec, slipCheckFails, get_price, is_pair_tradable, envC3, mdSlip,
      cacheInsert, pathUBE, SLIPPAGE_TOLERANCE, cache0]
    norm_num
  exact ⟨h2, h1,
    (C3_amended_leg_orders envC3 cache0 100 pathUBE).2.2 _ h1⟩

/-- Claim C6 counterexample: there is no RateLimiter in the code.  A
single successful `execute_trade` pass issues 14 outbound exchange calls
back to back (the BNB balance check, then per leg the exchange-info,
order-book, ticker and order calls, then the final balance read) with no
admission control and no waiting between them — more than the spec's own
testable capacity of 10 per 1000 ms window — and this count does not
even include the further calls `calculate_profit` makes inside the same
pass. -/
theorem C6_counterexample :
    (execute_trade envsC6 pathUBE cache0).calls.length = 14 ∧
    specApiWindowCapacity < (execute_trade envsC6 pathUBE cache0).calls.length := by
  have h : (execute_trade envsC6 pathUBE cache0).calls.length = 14 := by
    simp [execute_trade, execute_trade_retry, execute_trade_body, envsC6,
      envC6, mdProd, calculate_profit, runLegs, legStep, legsExec,
      slipCheckFails, get_price, is_pair_tradable, cacheInsert, pathUBE,
      RETRY_TIMES, MIN_TRADE_AMOUNT, MAX_TRADE_AMOUNT, SLIPPAGE_TOLERANCE,
      TRADE_FEE, cache0]
    norm_num
  refine ⟨h, ?_⟩
  rw [h, specApiWindowCapacity]
  norm_num

/-- Claim C6 amended: outbound exchange calls are issued directly, with
no rate limiter anywhere in the code: a successful trade pass with a
funded BNB balance performs exactly `2 + 4 * legs` consecutive exchange
calls (balance check, four calls per leg, final balance read), with
nothing between them that could wait for window capacity; a rate-limit
rejection by the exchange would surface as an exception to the generic
retry decorator rather than being absorbed by waiting. -/
theorem C6_amended_burst (env : ExecEnv) (st : Cache) (path : List String)
    (q : ℚ) (hbnb : 1 / 10 ≤ env.assetBalance "BNB")
    (hok : (execute_trade_body env st path).outcome = .ok q) :
    (execute_trade_body env st path).calls.length =
      2 + 4 * (legSymbols path).length := by
  unfold execute_trade_body at hok ⊢
  dsimp only at hok ⊢
  by_cases hlow : env.md.latestBalance * (8 / 10) < MIN_TRADE_AMOUNT
  · rw [if_pos hlow] at hok
    simp at hok
  · rw [if_neg hlow] at hok ⊢
    have hb : ¬ (env.assetBalance "BNB" < 1 / 10) := not_lt.mpr hbnb
    rw [if_neg hb] at hok ⊢
    cases hres : (legsExec env (calculate_profit env.md st path).2
        (if MAX_TRADE_AMOUNT < env.md.latestBalance * (8 / 10) then
          MAX_TRADE_AMOUNT else env.md.latestBalance * (8 / 10)) path).result with
    | error e =>
      rw [hres] at hok
      simp at hok
    | ok qq =>
      dsimp only
      simp only [if_neg hb, List.length_append, List.length_cons,
        List.length_nil]
      have hc := legsExec_calls_ok env path (calculate_profit env.md st path).2
        (if MAX_TRADE_AMOUNT < env.md.latestBalance * (8 / 10) then
          MAX_TRADE_AMOUNT else env.md.latestBalance * (8 / 10)) qq hres
      omega

/-- Witness for the amended C6 at the concrete environment: the pass
succeeds and makes exactly 2 + 4 * 3 = 14 consecutive exchange calls. -/
theorem C6_amended_witness :
    (execute_trade_body envC6 cache0 pathUBE).calls.length =
      2 + 4 * (legSymbols pathUBE).length := by
  have hok : (execute_trade_body envC6 cache0 pathUBE).outcome = .ok 500 := by
    simp [execute_trade_body, envC6, mdProd, calculate_profit, runLegs,
      legStep, legsExec, slipCheckFails, get_price, is_pair_tradable,
      cacheInsert, pathUBE, MIN_TRADE_AMOUNT, MAX_TRADE_AMOUNT,
      SLIPPAGE_TOLERANCE, TRADE_FEE, cache0]
    norm_num
  exact C6_amended_burst envC6 cache0 pathUBE 500 (by norm_num [envC6]) hok

theorem execute_trade_body_low (env : ExecEnv) (st : Cache) (path : List String)
    (h : env.md.latestBalance * (8 / 10) < MIN_TRADE_AMOUNT) :
    execute_trade_body env st path =
      ⟨[], [], (calculate_profit env.md st path).2, .error .belowMinimum⟩ := by
  unfold execute_trade_body
  dsimp only
  rw [if_pos h]

theorem execute_trade_retry_low (envs : Nat → ExecEnv) (path : List String)
    (h : ∀ n, (envs n).md.latestBalance * (8 / 10) < MIN_TRADE_AMOUNT) :
    ∀ (fuel attempt : Nat) (st : Cache) (subm : List TradeOrder)
      (calls : List ApiCall),
      (execute_trade_retry envs path attempt fuel st subm calls).submitted =
        subm ∧
      (execute_trade_retry envs path attempt fuel st subm calls).outcome =
        .error .belowMinimum := by
  intro fuel
  induction fuel with
  | zero =>
    intro attempt st subm calls
    rw [execute_trade_retry, execute_trade_body_low _ _ _ (h attempt)]
    simp
  | succ n ih =>
    intro attempt st subm calls
    rw [execute_trade_retry, execute_trade_body_low _ _ _ (h attempt)]
    dsimp only
    simp only [List.append_nil]
    exact ih (attempt + 1) _ subm calls

theorem runVal_setBalance (md : MarketData) (b' : ℚ) :
    ∀ (path : List String) (amt : ℚ),
      runVal md path amt =
        runVal ⟨md.symbols, md.ticker, md.orderBook, b'⟩ path amt := by
  intro path
  induction path with
  | nil => intro amt; rfl
  | cons a tail ih =>
    intro amt
    cases tail with
    | nil => rfl
    | cons c rest =>
      rw [runVal, runVal]
      rw [show legValue md amt a c =
        legValue ⟨md.symbols, md.ticker, md.orderBook, b'⟩ amt a c from rfl]
      cases hv : legValue ⟨md.symbols, md.ticker, md.orderBook, b'⟩ amt a c with
      | none => rfl
      | some x => exact ih x

/-- Claim C10: the principal is 80% of the latest recorded sheet balance
for both evaluation and execution.  When that principal is below
`MIN_TRADE_AMOUNT` (10 USDT), evaluation returns profit 0 and execution
raises before submitting any order on every retry attempt, ending with
the below-minimum rejection and an empty submission list; when the
principal exceeds `MAX_TRADE_AMOUNT` (1000 USDT), evaluation behaves
exactly as if the balance were 1250 (whose 80% is exactly 1000), and the
first leg order of an execution pass is submitted with quote amount
exactly `MAX_TRADE_AMOUNT`. -/
theorem C10_principal (md mdH : MarketData) (st : Cache) (path : List String)
    (envs : Nat → ExecEnv) (env : ExecEnv) (a b : String) (rest : List String)
    (best : ℚ) :
    (md.latestBalance * (8 / 10) < MIN_TRADE_AMOUNT →
      (calculate_profit md st path).1 = 0) ∧
    ((∀ n, (envs n).md.latestBalance * (8 / 10) < MIN_TRADE_AMOUNT) →
      (execute_trade envs path st).submitted = [] ∧
      (execute_trade envs path st).outcome = .error .belowMinimum) ∧
    (MAX_TRADE_AMOUNT < mdH.latestBalance * (8 / 10) →
      (calculate_profit mdH st path).1 =
        (calculate_profit ⟨mdH.symbols, mdH.ticker, mdH.orderBook, 1250⟩
          st path).1) ∧
    (MAX_TRADE_AMOUNT < env.md.latestBalance * (8 / 10) →
      1 / 10 ≤ env.assetBalance "BNB" →
      is_pair_tradable env.md (a ++ b) = true →
      env.md.orderBook (a ++ b) = some best →
      (∀ p, env.md.ticker (a ++ b) = some p → p ≠ 0 →
        |best - p| / p ≤ SLIPPAGE_TOLERANCE) →
      (execute_trade_body env st (a :: b :: rest)).submitted.head? =
        some ⟨a ++ b, MAX_TRADE_AMOUNT⟩) := by
  refine ⟨?_, ?_, ?_, ?_⟩
  · intro h
    rw [calculate_profit_fst]
    unfold profitVal
    dsimp only
    rw [if_pos h]
  · intro h
    exact execute_trade_retry_low envs path h (RETRY_TIMES - 1) 0 st [] []
  · intro h
    have hmin : ¬ (mdH.latestBalance * (8 / 10) < MIN_TRADE_AMOUNT) := by
      rw [MIN_TRADE_AMOUNT]
      rw [MAX_TRADE_AMOUNT] at h
      linarith
    rw [calculate_profit_fst, calculate_profit_fst]
    unfold profitVal
    dsimp only
    rw [if_neg hmin, if_pos h]
    have e1 : ((1250 : ℚ) * (8 / 10)) = 1000 := by norm_num
    rw [e1]
    rw [if_neg (show ¬ ((1000 : ℚ) < MIN_TRADE_AMOUNT) by
      norm_num [MIN_TRADE_AMOUNT])]
    rw [if_neg (show ¬ (MAX_TRADE_AMOUNT < (1000 : ℚ)) by
      norm_num [MAX_TRADE_AMOUNT])]
    have e2 : MAX_TRADE_AMOUNT = (1000 : ℚ) := rfl
    rw [e2]
    rw [runVal_setBalance mdH 1250 path 1000]
  · intro h hbnb hmem hob hslip
    have hlow : ¬ (env.md.latestBalance * (8 / 10) < MIN_TRADE_AMOUNT) := by
      rw [MIN_TRADE_AMOUNT]
      rw [MAX_TRADE_AMOUNT] at h
      linarith
    have hsb : slipCheckFails best (get_price env.md
        ((calculate_profit env.md st (a :: b :: rest)).2) (a ++ b)).1 = false := by
      unfold slipCheckFails get_price
      cases ht : env.md.ticker (a ++ b) with
      | none => rfl
      | some p =>
        dsimp only
        by_cases hp : p = 0
        · rw [if_pos hp]
        · rw [if_neg hp]
          simp [not_lt.mpr (hslip p ht hp)]
    have hcur : (0 : ℚ) < MAX_TRADE_AMOUNT := by norm_num [MAX_TRADE_AMOUNT]
    have hE : legsExec env ((calculate_profit env.md st (a :: b :: rest)).2)
        MAX_TRADE_AMOUNT (a :: b :: rest) =
        ⟨⟨a ++ b, MAX_TRADE_AMOUNT⟩ ::
          (legsExec env (get_price env.md
              ((calculate_profit env.md st (a :: b :: rest)).2) (a ++ b)).2
            (env.executedQty (a ++ b) MAX_TRADE_AMOUNT) (b :: rest)).submitted,
         .exchangeInfo (a ++ b) :: .orderBook (a ++ b) :: .ticker (a ++ b) ::
           .marketBuy (a ++ b) MAX_TRADE_AMOUNT ::
           (legsExec env (get_price env.md
               ((calculate_profit env.md st (a :: b :: rest)).2) (a ++ b)).2
             (env.executedQty (a ++ b) MAX_TRADE_AMOUNT) (b :: rest)).calls,
         (legsExec env (get_price env.md
             ((calculate_profit env.md st (a :: b :: rest)).2) (a ++ b)).2
           (env.executedQty (a ++ b) MAX_TRADE_AMOUNT) (b :: rest)).st,
         (legsExec env (get_price env.md
             ((calculate_profit env.md st (a :: b :: rest)).2) (a ++ b)).2
           (env.executedQty (a ++ b) MAX_TRADE_AMOUNT) (b :: rest)).result⟩ := by
      simp [legsExec, hmem, hob, hsb, hcur]
    unfold execute_trade_body
    dsimp only
    rw [if_neg hlow]
    simp only [if_pos h, if_neg (not_lt.mpr hbnb), hE]
    cases hres : (legsExec env (get_price env.md
        ((calculate_profit env.md st (a :: b :: rest)).2) (a ++ b)).2
        (env.executedQty (a ++ b) MAX_TRADE_AMOUNT) (b :: rest)).result with
    | error e => simp
    | ok qq => simp

/-- Witness for C10 at concrete balances: sheet balance 10 (principal 8,
below minimum) for the zero-profit and no-order parts, and sheet balance
2000 (principal 1600, clamped to 1000) for the clamping parts. -/
theorem C10_witness :
    (calculate_profit mdLow cache0 pathUBE).1 = 0 ∧
    (execute_trade envsLow pathUBE cache0).submitted = [] ∧
    (execute_trade envsLow pathUBE cache0).outcome = .error .belowMinimum ∧
    (calculate_profit mdHigh cache0 pathUBE).1 =
      (calculate_profit ⟨mdHigh.symbols, mdHigh.ticker, mdHigh.orderBook, 1250⟩
        cache0 pathUBE).1 ∧
    (execute_trade_body envHigh cache0 pathUBE).submitted.head? =
      some ⟨"USDTBTC", MAX_TRADE_AMOUNT⟩ := by
  obtain ⟨h1, h2, h3, h4⟩ := C10_principal mdLow mdHigh cache0 pathUBE envsLow
    envHigh "USDT" "BTC" ["ETH", "USDT"] 2
  have hlo : mdLow.latestBalance * (8 / 10) < MIN_TRADE_AMOUNT := by
    norm_num [mdLow, MIN_TRADE_AMOUNT]
  have hlos : ∀ n, (envsLow n).md.latestBalance * (8 / 10) < MIN_TRADE_AMOUNT := by
    intro n
    norm_num [envsLow, mdLow, MIN_TRADE_AMOUNT]
  have hhi : MAX_TRADE_AMOUNT < mdHigh.latestBalance * (8 / 10) := by
    norm_num [mdHigh, MAX_TRADE_AMOUNT]
  have hA : MAX_TRADE_AMOUNT < envHigh.md.latestBalance * (8 / 10) := by
    simp [envHigh]
    norm_num [MAX_TRADE_AMOUNT]
  have hB : 1 / 10 ≤ envHigh.assetBalance "BNB" := by
    simp [envHigh]
    norm_num
  have hC : is_pair_tradable envHigh.md ("USDT" ++ "BTC") = true := by
    simp [is_pair_tradable, envHigh, mdProd]
  have hD : envHigh.md.orderBook ("USDT" ++ "BTC") = some 2 := by
    simp [envHigh, mdProd]
  have hEw : ∀ p, envHigh.md.ticker ("USDT" ++ "BTC") = some p → p ≠ 0 →
      |2 - p| / p ≤ SLIPPAGE_TOLERANCE := by
    intro p hp _
    simp [envHigh, mdProd] at hp
    rw [← hp]
    norm_num [SLIPPAGE_TOLERANCE]
  have h5 := h4 hA hB hC hD hEw
  refine ⟨h1 hlo, (h2 hlos).1, (h2 hlos).2, h3 hhi, ?_⟩
  simpa using h5
